import Mathlib

/-!
Verification of the MD5 trace engine of `fanweixiao/md5algorithm`
(file `src/App.jsx`, the trace-producing part after the UI component).

The JavaScript source is shallowly embedded: machine 32-bit unsigned
arithmetic (`>>> 0`, `& | ^ ~`, `<<`, `>>>`) becomes `Nat` arithmetic with
explicit `% 4294967296` where the source truncates, arrays of fixed shape
become structures or `List Nat`, thrown exceptions become `Except`.
-/

namespace Md5

/-- Input mode selector, the JS strings `'text'` and `'hex'`. -/
inductive InputType where
  | text
  | hex
deriving DecidableEq, Repr

/-- The running 4-word hash accumulator, a JS array of 4 unsigned words. -/
structure HashState where
  h0 : Nat
  h1 : Nat
  h2 : Nat
  h3 : Nat
deriving DecidableEq, Repr

/-- The 4 working registers A, B, C, D of the round engine. -/
structure Regs where
  a : Nat
  b : Nat
  c : Nat
  d : Nat
deriving DecidableEq, Repr

/-- One 64-byte chunk together with its decoded 16 little-endian words,
as built by `chunkBytes` in the source. -/
structure Chunk where
  index : Nat
  bytes : List Nat
  words : List Nat
deriving DecidableEq, Repr

/-- The tagged event union emitted by `buildMd5Trace`; one constructor per
`type:` value pushed onto the `events` array in the source. -/
inductive Event where
  | preprocess (inputType : InputType)
      (inputLengthBytes inputLengthBits paddedLengthBytes paddedLengthBits : Nat)
      (addedBytes chunkCount : Nat) (digestPreview : String)
  | chunkStart (chunkIndex : Nat) (chunkWords : List Nat)
      (hashBefore : HashState) (registersBefore : Regs) (digestPreview : String)
  | round (chunkIndex roundIndex stepWithinChunk : Nat)
      (functionName functionFormula indexFormula : String)
      (g shift constant messageWord functionResult sum rotated : Nat)
      (registersBefore registersAfter : Regs) (digestPreview : String)
  | chunkEnd (chunkIndex : Nat) (hashBefore : HashState)
      (registersBeforeAdd : Regs) (hashAfter : HashState)
      (digestAfterChunk digestPreview : String)
  | done (hash : HashState) (digest : String) (chunkCount : Nat)
      (digestPreview : String)
deriving DecidableEq, Repr

/-- The full trace record returned by `buildMd5Trace`. -/
structure Trace where
  inputType : InputType
  inputBytes : List Nat
  paddedBytes : List Nat
  chunks : List Chunk
  events : List Event
  digest : String
  constants : List Nat
  shifts : List Nat
  initialHash : HashState
deriving DecidableEq, Repr

/-- `INITIAL_HASH` from the source. -/
def INITIAL_HASH : HashState :=
  ⟨0x67452301, 0xefcdab89, 0x98badcfe, 0x10325476⟩

/-- `SHIFT_AMOUNTS` from the source. -/
def SHIFT_AMOUNTS : List Nat :=
  [7, 12, 17, 22, 7, 12, 17, 22, 7, 12, 17, 22, 7, 12, 17, 22,
   5, 9, 14, 20, 5, 9, 14, 20, 5, 9, 14, 20, 5, 9, 14, 20,
   4, 11, 16, 23, 4, 11, 16, 23, 4, 11, 16, 23, 4, 11, 16, 23,
   6, 10, 15, 21, 6, 10, 15, 21, 6, 10, 15, 21, 6, 10, 15, 21]

/-- `TABLE_K` from the source.  The JS builds this table once at start-up as
`Math.floor(Math.abs(Math.sin(index + 1)) * 0x100000000) >>> 0` for
`index = 0..63`; that IEEE-double computation evaluates to the RFC 1321
constant table, which is embedded here as the resulting literal values. -/
def TABLE_K : List Nat :=
  [0xd76aa478, 0xe8c7b756, 0x242070db, 0xc1bdceee,
   0xf57c0faf, 0x4787c62a, 0xa8304613, 0xfd469501,
   0x698098d8, 0x8b44f7af, 0xffff5bb1, 0x895cd7be,
   0x6b901122, 0xfd987193, 0xa679438e, 0x49b40821,
   0xf61e2562, 0xc040b340, 0x265e5a51, 0xe9b6c7aa,
   0xd62f105d, 0x02441453, 0xd8a1e681, 0xe7d3fbc8,
   0x21e1cde6, 0xc33707d6, 0xf4d50d87, 0x455a14ed,
   0xa9e3e905, 0xfcefa3f8, 0x676f02d9, 0x8d2a4c8a,
   0xfffa3942, 0x8771f681, 0x6d9d6122, 0xfde5380c,
   0xa4beea44, 0x4bdecfa9, 0xf6bb4b60, 0xbebfbc70,
   0x289b7ec6, 0xeaa127fa, 0xd4ef3085, 0x04881d05,
   0xd9d4d039, 0xe6db99e5, 0x1fa27cf8, 0xc4ac5665,
   0xf4292244, 0x432aff97, 0xab9423a7, 0xfc93a039,
   0x655b59c3, 0x8f0ccc92, 0xffeff47d, 0x85845dd1,
   0x6fa87e4f, 0xfe2ce6e0, 0xa3014314, 0x4e0811a1,
   0xf7537e82, 0xbd3af235, 0x2ad7d2bb, 0xeb86d391]

/-- `ROUND_FORMULAS` lookup from the source (a frozen JS object). -/
def ROUND_FORMULAS (name : String) : String :=
  if name = "F" then "(B & C) | (~B & D)"
  else if name = "G" then "(D & B) | (~D & C)"
  else if name = "H" then "B ^ C ^ D"
  else if name = "I" then "C ^ (B | ~D)"
  else ""

/-- `INDEX_FORMULAS` lookup from the source (a frozen JS object). -/
def INDEX_FORMULAS (name : String) : String :=
  if name = "F" then "g = i"
  else if name = "G" then "g = (5i + 1) mod 16"
  else if name = "H" then "g = (3i + 5) mod 16"
  else if name = "I" then "g = (7i) mod 16"
  else ""

/-- JS 32-bit complement `~x` viewed on the unsigned 32-bit range. -/
def compl32 (x : Nat) : Nat := x ^^^ 4294967295

/-- `leftRotate` from the source:
`((value << amount) | (value >>> (32 - amount))) >>> 0`. -/
def leftRotate (value amount : Nat) : Nat :=
  ((value <<< amount) ||| (value >>> (32 - amount))) % 4294967296

/-- `bytesToWordLittleEndian` from the source; a JS out-of-range array read
coerces to 0 under `|`, which `getD _ 0` reproduces. -/
def bytesToWordLittleEndian (bytes : List Nat) (offset : Nat) : Nat :=
  (bytes.getD offset 0 |||
   (bytes.getD (offset + 1) 0 <<< 8) |||
   (bytes.getD (offset + 2) 0 <<< 16) |||
   (bytes.getD (offset + 3) 0 <<< 24)) % 4294967296

/-- One lowercase hexadecimal digit, as produced by JS `toString(16)`. -/
def hexChar (n : Nat) : Char :=
  if n < 10 then Char.ofNat (48 + n) else Char.ofNat (87 + n)

/-- JS `byte.toString(16).padStart(2, '0')` for a byte value `b < 256`. -/
def byteToHex (b : Nat) : String :=
  ⟨[hexChar (b / 16), hexChar (b % 16)]⟩

/-- `wordToHexLittleEndian` from the source: the word's 4 bytes in
little-endian order, each as 2 lowercase hex digits. -/
def wordToHexLittleEndian (word : Nat) : String :=
  byteToHex ((word % 4294967296) &&& 255) ++
  byteToHex (((word % 4294967296) >>> 8) &&& 255) ++
  byteToHex (((word % 4294967296) >>> 16) &&& 255) ++
  byteToHex (((word % 4294967296) >>> 24) &&& 255)

/-- `digestFromState` from the source: the four words rendered in order. -/
def digestFromState (state : HashState) : String :=
  wordToHexLittleEndian state.h0 ++ wordToHexLittleEndian state.h1 ++
  wordToHexLittleEndian state.h2 ++ wordToHexLittleEndian state.h3

/-- The character set removed by the JS regex `\s` (whitespace) in
`value.replace(/\s+/g, '')`. -/
def isJsWs (c : Char) : Bool :=
  [9, 10, 11, 12, 13, 32, 160, 5760,
   8192, 8193, 8194, 8195, 8196, 8197, 8198, 8199, 8200, 8201, 8202,
   8232, 8233, 8239, 8287, 12288, 65279].contains c.toNat

/-- Membership in the lowercase character class `[0-9a-f]` of the source's
validation regex. -/
def isHexLc (c : Char) : Bool :=
  decide ((48 ≤ c.toNat ∧ c.toNat ≤ 57) ∨ (97 ≤ c.toNat ∧ c.toNat ≤ 102))

/-- Membership in the mixed-case character class `[0-9a-fA-F]`. -/
def isHexMixed (c : Char) : Bool :=
  decide ((48 ≤ c.toNat ∧ c.toNat ≤ 57) ∨ (97 ≤ c.toNat ∧ c.toNat ≤ 102) ∨
    (65 ≤ c.toNat ∧ c.toNat ≤ 70))

/-- Value of one hexadecimal digit character, as used by JS
`parseInt(pair, 16)` on validated input. -/
def hexVal (c : Char) : Nat :=
  if c.toNat ≤ 57 then c.toNat - 48 else c.toNat - 87

/-- The decoding loop of `parseHexInput`: consecutive pairs of hex digits
into bytes, in input order. -/
def decodeHexPairs : List Char → List Nat
  | c1 :: c2 :: rest => (16 * hexVal c1 + hexVal c2) :: decodeHexPairs rest
  | _ => []

/-- `parseHexInput` from the source: strip whitespace, lowercase, accept the
empty string as no bytes, reject an odd digit count or a character outside
`[0-9a-f]`, otherwise decode pairs.  The two JS `throw new Error(...)`
cases become `Except.error` with the same messages. -/
def parseHexInput (value : String) : Except String (List Nat) :=
  let clean := (value.data.filter (fun c => !isJsWs c)).map Char.toLower
  if clean.length = 0 then Except.ok []
  else if clean.length % 2 ≠ 0 then
    Except.error "Hex input must contain an even number of digits."
  else if clean.any (fun c => !isHexLc c) then
    Except.error "Hex input can only contain 0-9 and a-f."
  else Except.ok (decodeHexPairs clean)

/-- UTF-8 encoding of one Unicode scalar value, as produced by the JS
`TextEncoder` for characters of the input string. -/
def utf8EncodeChar (c : Char) : List Nat :=
  let n := c.toNat
  if n < 128 then [n]
  else if n < 2048 then [192 + n / 64, 128 + n % 64]
  else if n < 65536 then [224 + n / 4096, 128 + n / 64 % 64, 128 + n % 64]
  else [240 + n / 262144, 128 + n / 4096 % 64, 128 + n / 64 % 64, 128 + n % 64]

/-- `Array.from(new TextEncoder().encode(value))`. -/
def utf8Encode (s : List Char) : List Nat :=
  (s.map utf8EncodeChar).flatten

/-- `parseInputBytes` from the source. -/
def parseInputBytes (value : String) (inputType : InputType) :
    Except String (List Nat) :=
  match inputType with
  | .hex => parseHexInput value
  | .text => Except.ok (utf8Encode value.data)

/-- `padBytes` from the source: append `0x80`, then `0x00` until the length
is 56 mod 64 (the `while` loop pushes exactly `(120 - (n+1) % 64) % 64`
zeros), then the 8 little-endian bytes of the unbounded bit length
(`BigInt` in JS, `Nat` here). -/
def padBytes (bytes : List Nat) : List Nat :=
  let bitLength := 8 * bytes.length
  bytes ++ [128] ++ List.replicate ((120 - (bytes.length + 1) % 64) % 64) 0 ++
    (List.range 8).map (fun k => (bitLength >>> (8 * k)) &&& 255)

/-- The loop body of `chunkBytes`; `fuel` bounds the number of remaining
bytes and only decreases faster than the 64-byte strides consume them. -/
def chunkBytesGo (fuel idx : Nat) (bytes : List Nat) : List Chunk :=
  match fuel with
  | 0 => []
  | fuel + 1 =>
    if bytes.isEmpty then []
    else
      let block := bytes.take 64
      { index := idx
        bytes := block
        words := (List.range 16).map
          (fun wordIndex => bytesToWordLittleEndian block (wordIndex * 4)) } ::
        chunkBytesGo fuel (idx + 1) (bytes.drop 64)

/-- `chunkBytes` from the source: successive 64-byte slices, each with its
zero-based index and decoded words. -/
def chunkBytes (bytes : List Nat) : List Chunk :=
  chunkBytesGo bytes.length 0 bytes

/-- One iteration of the 64-round loop in `buildMd5Trace`: the family
selection, `sum`, `rotated`, the register rotation, and the emitted
`round` event with its preview digest. -/
def roundStep (hashBefore : HashState) (chunkIndex : Nat) (words : List Nat)
    (i : Nat) (r : Regs) : Event × Regs :=
  let aB := r.a % 4294967296
  let bB := r.b % 4294967296
  let cB := r.c % 4294967296
  let dB := r.d % 4294967296
  let sel : String × Nat × Nat :=
    if i < 16 then ("F", (bB &&& cB) ||| (compl32 bB &&& dB), i)
    else if i < 32 then ("G", (dB &&& bB) ||| (compl32 dB &&& cB), (5 * i + 1) % 16)
    else if i < 48 then ("H", bB ^^^ cB ^^^ dB, (3 * i + 5) % 16)
    else ("I", cB ^^^ (bB ||| compl32 dB), (7 * i) % 16)
  let functionName := sel.1
  let g := sel.2.2
  let functionResult := sel.2.1 % 4294967296
  let sum := (aB + functionResult + TABLE_K.getD i 0 + words.getD g 0) % 4294967296
  let rotated := leftRotate sum (SHIFT_AMOUNTS.getD i 0)
  let nextB := (bB + rotated) % 4294967296
  let after : Regs := ⟨dB, nextB, bB, cB⟩
  let previewHash : HashState :=
    ⟨(hashBefore.h0 + after.a) % 4294967296,
     (hashBefore.h1 + after.b) % 4294967296,
     (hashBefore.h2 + after.c) % 4294967296,
     (hashBefore.h3 + after.d) % 4294967296⟩
  (Event.round chunkIndex i (i + 1) functionName
     (ROUND_FORMULAS functionName) (INDEX_FORMULAS functionName)
     g (SHIFT_AMOUNTS.getD i 0) (TABLE_K.getD i 0) (words.getD g 0)
     functionResult sum rotated ⟨aB, bB, cB, dB⟩ after
     (digestFromState previewHash),
   after)

/-- The `for (let i = 0; i < 64; ...)` loop of `buildMd5Trace`, collecting
the round events and the final registers; called with `i = 0`, `fuel = 64`. -/
def runRounds (hashBefore : HashState) (chunkIndex : Nat) (words : List Nat) :
    Nat → Nat → Regs → List Event × Regs
  | 0, _, r => ([], r)
  | fuel + 1, i, r =>
    let step := roundStep hashBefore chunkIndex words i r
    let rest := runRounds hashBefore chunkIndex words fuel (i + 1) step.2
    (step.1 :: rest.1, rest.2)

/-- The per-chunk loop of `buildMd5Trace`: `chunk-start` event, 64 rounds,
fold of the registers into the hash, `chunk-end` event, then the next
chunk; returns all emitted events and the final hash. -/
def processChunks (hash : HashState) : List Chunk → List Event × HashState
  | [] => ([], hash)
  | chunk :: rest =>
    let hashBefore := hash
    let r0 : Regs := ⟨hash.h0, hash.h1, hash.h2, hash.h3⟩
    let startEv := Event.chunkStart chunk.index chunk.words hashBefore r0
      (digestFromState hashBefore)
    let rounds := runRounds hashBefore chunk.index chunk.words 64 0 r0
    let rF := rounds.2
    let newHash : HashState :=
      ⟨(hash.h0 + rF.a) % 4294967296,
       (hash.h1 + rF.b) % 4294967296,
       (hash.h2 + rF.c) % 4294967296,
       (hash.h3 + rF.d) % 4294967296⟩
    let endEv := Event.chunkEnd chunk.index hashBefore
      ⟨rF.a % 4294967296, rF.b % 4294967296, rF.c % 4294967296, rF.d % 4294967296⟩
      newHash (digestFromState newHash) (digestFromState newHash)
    let restOut := processChunks newHash rest
    (startEv :: rounds.1 ++ endEv :: restOut.1, restOut.2)

/-- The body of `buildMd5Trace` after input parsing: preprocessing event,
all chunk events, `done` event, and the assembled trace record. -/
def buildTraceFromBytes (inputType : InputType) (inputBytes : List Nat) : Trace :=
  let paddedBytes := padBytes inputBytes
  let chunks := chunkBytes paddedBytes
  let preEv := Event.preprocess inputType inputBytes.length (8 * inputBytes.length)
    paddedBytes.length (8 * paddedBytes.length)
    (paddedBytes.length - inputBytes.length) chunks.length
    (digestFromState INITIAL_HASH)
  let run := processChunks INITIAL_HASH chunks
  let digest := digestFromState run.2
  let doneEv := Event.done run.2 digest chunks.length digest
  { inputType := inputType
    inputBytes := inputBytes
    paddedBytes := paddedBytes
    chunks := chunks
    events := preEv :: run.1 ++ [doneEv]
    digest := digest
    constants := TABLE_K
    shifts := SHIFT_AMOUNTS
    initialHash := INITIAL_HASH }

/-- `buildMd5Trace` from the source; a thrown `InvalidHexInput` error from
`parseHexInput` aborts the construction with no partial trace. -/
def buildMd5Trace (inputValue : String) (inputType : InputType) :
    Except String Trace :=
  (parseInputBytes inputValue inputType).map (buildTraceFromBytes inputType)

end Md5

namespace Md5

/-! ## Event classifiers and field accessors

Total functions over the event union, used to state trace invariants; the
accessors return a neutral default on variants that lack the field. -/

def Event.isPreprocess : Event → Bool
  | .preprocess .. => true
  | _ => false

def Event.isChunkStart : Event → Bool
  | .chunkStart .. => true
  | _ => false

def Event.isRound : Event → Bool
  | .round .. => true
  | _ => false

def Event.isChunkEnd : Event → Bool
  | .chunkEnd .. => true
  | _ => false

def Event.isDone : Event → Bool
  | .done .. => true
  | _ => false

def Event.chunkIndexOf : Event → Nat
  | .chunkStart ci _ _ _ _ => ci
  | .round ci _ _ _ _ _ _ _ _ _ _ _ _ _ _ _ => ci
  | .chunkEnd ci _ _ _ _ _ => ci
  | _ => 0

def Event.roundIndexOf : Event → Nat
  | .round _ ri _ _ _ _ _ _ _ _ _ _ _ _ _ _ => ri
  | _ => 0

def Event.registersBeforeOf : Event → Regs
  | .round _ _ _ _ _ _ _ _ _ _ _ _ _ rb _ _ => rb
  | _ => ⟨0, 0, 0, 0⟩

def Event.registersAfterOf : Event → Regs
  | .round _ _ _ _ _ _ _ _ _ _ _ _ _ _ ra _ => ra
  | _ => ⟨0, 0, 0, 0⟩

def Event.hashBeforeOf : Event → HashState
  | .chunkStart _ _ hb _ _ => hb
  | .chunkEnd _ hb _ _ _ _ => hb
  | _ => ⟨0, 0, 0, 0⟩

def Event.digestPreviewOf : Event → String
  | .preprocess _ _ _ _ _ _ _ dp => dp
  | .chunkStart _ _ _ _ dp => dp
  | .round _ _ _ _ _ _ _ _ _ _ _ _ _ _ _ dp => dp
  | .chunkEnd _ _ _ _ _ dp => dp
  | .done _ _ _ dp => dp

def Event.digestAfterChunkOf : Event → String
  | .chunkEnd _ _ _ _ dac _ => dac
  | _ => ""

/-! ## Spec-side round engine

These definitions follow the wording of the specification (round family by
range of `i`, the family formulas for `f` and `g`, `sum`, `rotated`, the
register rotation, and the positional fold), to be compared with the
engine embedded from the source. -/

/-- One compression round as the spec states it. -/
def specRoundStep (ws : List Nat) (i : Nat) (r : Regs) : Regs :=
  let fg : Nat × Nat :=
    if i < 16 then ((r.b &&& r.c) ||| (compl32 r.b &&& r.d), i)
    else if i < 32 then ((r.d &&& r.b) ||| (compl32 r.d &&& r.c), (5 * i + 1) % 16)
    else if i < 48 then (r.b ^^^ r.c ^^^ r.d, (3 * i + 5) % 16)
    else (r.c ^^^ (r.b ||| compl32 r.d), (7 * i) % 16)
  let sum := (r.a + fg.1 + TABLE_K.getD i 0 + ws.getD fg.2 0) % 4294967296
  let rotated := leftRotate sum (SHIFT_AMOUNTS.getD i 0)
  ⟨r.d, (r.b + rotated) % 4294967296, r.b, r.c⟩

/-- Rounds `i, i+1, ..., i+n-1` of the spec engine, applied in order. -/
def specRoundsFrom (ws : List Nat) : Nat → Nat → Regs → Regs
  | _, 0, r => r
  | i, n + 1, r => specRoundsFrom ws (i + 1) n (specRoundStep ws i r)

/-- The spec's chunk-end fold: per-entry addition modulo 2^32 with the
positional mapping A→H0, B→H1, C→H2, D→H3. -/
def addHR (h : HashState) (r : Regs) : HashState :=
  ⟨(h.h0 + r.a) % 4294967296, (h.h1 + r.b) % 4294967296,
   (h.h2 + r.c) % 4294967296, (h.h3 + r.d) % 4294967296⟩

/-- All four registers in the unsigned 32-bit range. -/
def RegsBounded (r : Regs) : Prop :=
  r.a < 4294967296 ∧ r.b < 4294967296 ∧ r.c < 4294967296 ∧ r.d < 4294967296

/-- All four hash words in the unsigned 32-bit range. -/
def HashBounded (h : HashState) : Prop :=
  h.h0 < 4294967296 ∧ h.h1 < 4294967296 ∧ h.h2 < 4294967296 ∧ h.h3 < 4294967296

/-! ## Derived views of the engine

Named forms of subterms of `processChunks` and `buildTraceFromBytes`, so
that the unfolding lemmas below stay readable.  Each is definitionally
equal to the corresponding subterm of the source embedding. -/

/-- The registers a chunk starts from: `let [a, b, c, d] = hash`. -/
def regsOfHash (h : HashState) : Regs := ⟨h.h0, h.h1, h.h2, h.h3⟩

/-- The 64-round run a chunk performs, with its events. -/
def chunkRoundsOut (h : HashState) (ch : Chunk) : List Event × Regs :=
  runRounds h ch.index ch.words 64 0 (regsOfHash h)

/-- The hash state after folding a chunk's final registers. -/
def chunkFold (h : HashState) (ch : Chunk) : HashState :=
  ⟨(h.h0 + (chunkRoundsOut h ch).2.a) % 4294967296,
   (h.h1 + (chunkRoundsOut h ch).2.b) % 4294967296,
   (h.h2 + (chunkRoundsOut h ch).2.c) % 4294967296,
   (h.h3 + (chunkRoundsOut h ch).2.d) % 4294967296⟩

/-- The chunk list a trace is built over. -/
def traceChunks (bs : List Nat) : List Chunk := chunkBytes (padBytes bs)

/-- The chunk-event list and final hash of a trace. -/
def traceRun (bs : List Nat) : List Event × HashState :=
  processChunks INITIAL_HASH (traceChunks bs)

/-- Proof-support shorthand: the trace of the empty text-mode input. -/
def emptyTextTrace : Trace := buildTraceFromBytes InputType.text []

/-- Proof-support shorthand: event number `n` of `emptyTextTrace`. -/
def evAt (n : Nat) : Event :=
  emptyTextTrace.events.getD n (Event.done ⟨0, 0, 0, 0⟩ "" 0 "")

/-! ## Helper lemmas on the digest formatter -/

theorem hexChar_mem_lc : ∀ n : Nat, n < 16 → isHexLc (hexChar n) = true := by
  decide

theorem byteToHex_length (b : Nat) : (byteToHex b).length = 2 := rfl

theorem byteToHex_all_lc (b : Nat) (hb : b < 256) :
    (byteToHex b).data.all isHexLc = true := by
  have h1 : b / 16 < 16 := by omega
  have h2 : b % 16 < 16 := by omega
  simp [byteToHex, hexChar_mem_lc _ h1, hexChar_mem_lc _ h2]

theorem and255_lt (x : Nat) : x &&& 255 < 256 :=
  Nat.lt_of_le_of_lt Nat.and_le_right (by norm_num)

theorem wordToHexLittleEndian_length (w : Nat) :
    (wordToHexLittleEndian w).length = 8 := by
  simp [wordToHexLittleEndian, String.length_append, byteToHex_length]

theorem wordToHexLittleEndian_all_lc (w : Nat) :
    (wordToHexLittleEndian w).data.all isHexLc = true := by
  simp only [wordToHexLittleEndian, String.data_append, List.all_append,
    Bool.and_eq_true]
  exact ⟨⟨⟨byteToHex_all_lc _ (and255_lt _), byteToHex_all_lc _ (and255_lt _)⟩,
    byteToHex_all_lc _ (and255_lt _)⟩, byteToHex_all_lc _ (and255_lt _)⟩

theorem digestFromState_length (s : HashState) :
    (digestFromState s).length = 32 := by
  simp [digestFromState, String.length_append, wordToHexLittleEndian_length]

theorem digestFromState_all_lc (s : HashState) :
    (digestFromState s).data.all isHexLc = true := by
  simp only [digestFromState, String.data_append, List.all_append,
    Bool.and_eq_true]
  exact ⟨⟨⟨wordToHexLittleEndian_all_lc _, wordToHexLittleEndian_all_lc _⟩,
    wordToHexLittleEndian_all_lc _⟩, wordToHexLittleEndian_all_lc _⟩

/-! ## C1 -/

set_option maxRecDepth 8000 in
/-- C1: in text mode, the digest field of the trace built for the empty
string is `d41d8cd98f00b204e9800998ecf8427e`, and for `"abc"` it is
`900150983cd24fb0d6963f7d28e17f72`. -/
theorem text_mode_digest_vectors :
    (buildMd5Trace "" InputType.text).map Trace.digest =
      Except.ok "d41d8cd98f00b204e9800998ecf8427e" ∧
    (buildMd5Trace "abc" InputType.text).map Trace.digest =
      Except.ok "900150983cd24fb0d6963f7d28e17f72" := by
  exact ⟨rfl, rfl⟩

/-! ## C2 -/

/-- C2: the digest string built from any 4-word hash state is the
concatenation, in word order H0 H1 H2 H3, of each word's 4 little-endian
bytes rendered as 2 lowercase hex digits — in particular it is exactly 32
lowercase hexadecimal characters — and hence so is the digest of every
trace built from any byte sequence. -/
theorem digest_format :
    (∀ s : HashState,
        digestFromState s =
          wordToHexLittleEndian s.h0 ++ wordToHexLittleEndian s.h1 ++
          wordToHexLittleEndian s.h2 ++ wordToHexLittleEndian s.h3 ∧
        (digestFromState s).length = 32 ∧
        (digestFromState s).data.all isHexLc = true) ∧
    (∀ (ty : InputType) (bs : List Nat),
        ((buildTraceFromBytes ty bs).digest).length = 32 ∧
        ((buildTraceFromBytes ty bs).digest).data.all isHexLc = true) := by
  refine ⟨fun s => ⟨rfl, digestFromState_length s, digestFromState_all_lc s⟩,
    fun ty bs => ⟨digestFromState_length _, digestFromState_all_lc _⟩⟩

/-! ## C3 -/

theorem shift_and_byte (x k : Nat) (hk : k < 8) :
    x >>> (8 * k) &&& 255 = x % 2 ^ 64 / 2 ^ (8 * k) % 256 := by
  have h1 : (2 : Nat) ^ 64 = 2 ^ (8 * k) * 2 ^ (64 - 8 * k) := by
    rw [← pow_add]
    congr 1
    omega
  have h2 : (256 : Nat) ∣ 2 ^ (64 - 8 * k) := by
    rw [show (256 : Nat) = 2 ^ 8 by norm_num]
    exact pow_dvd_pow 2 (by omega)
  rw [Nat.shiftRight_eq_div_pow, h1, Nat.mod_mul_right_div_self,
    Nat.mod_mod_of_dvd _ h2, show (255 : Nat) = 2 ^ 8 - 1 by norm_num,
    Nat.and_pow_two_sub_one_eq_mod]

/-- C3: padding appends a single `0x80` byte, zero bytes until the length is
56 mod 64, then the original bit length (8 × byte count, modulo 2^64) as 8
little-endian bytes; the padded length is a multiple of 64 and between 9 and
72 bytes are added, for every input including the empty one. -/
theorem padBytes_spec (bs : List Nat) :
    ∃ z : Nat,
      padBytes bs = bs ++ [128] ++ List.replicate z 0 ++
        (List.range 8).map (fun k => 8 * bs.length % 2 ^ 64 / 2 ^ (8 * k) % 256) ∧
      (bs.length + 1 + z) % 64 = 56 ∧
      (padBytes bs).length % 64 = 0 ∧
      9 ≤ (padBytes bs).length - bs.length ∧
      (padBytes bs).length - bs.length ≤ 72 := by
  have hlen : (padBytes bs).length =
      bs.length + 1 + (120 - (bs.length + 1) % 64) % 64 + 8 := by
    simp [padBytes]
    omega
  refine ⟨(120 - (bs.length + 1) % 64) % 64, ?_, by omega, by omega, by omega,
    by omega⟩
  simp only [padBytes]
  congr 1
  refine List.map_congr_left fun k hk => ?_
  exact shift_and_byte _ k (List.mem_range.mp hk)

end Md5

namespace Md5

/-! ## C8 -/

set_option maxRecDepth 8000 in
/-- C8: hex-mode input `"61 62 63"` yields the identical byte sequence,
identical padded message, and identical digest as text-mode `"abc"`
(and that byte sequence is `[97, 98, 99]`). -/
theorem hex_matches_text_abc :
    (buildMd5Trace "61 62 63" InputType.hex).map Trace.inputBytes =
      (buildMd5Trace "abc" InputType.text).map Trace.inputBytes ∧
    (buildMd5Trace "61 62 63" InputType.hex).map Trace.paddedBytes =
      (buildMd5Trace "abc" InputType.text).map Trace.paddedBytes ∧
    (buildMd5Trace "61 62 63" InputType.hex).map Trace.digest =
      (buildMd5Trace "abc" InputType.text).map Trace.digest ∧
    (buildMd5Trace "61 62 63" InputType.hex).map Trace.inputBytes =
      Except.ok [97, 98, 99] :=
  ⟨rfl, rfl, rfl, rfl⟩

/-! ## C7 -/

theorem toNat_ofNat_valid (n : Nat) (h : n.isValidChar) :
    (Char.ofNat n).toNat = n := by
  unfold Char.ofNat
  rw [dif_pos h]
  rfl

theorem isHexLc_toLower (c : Char) :
    isHexLc (Char.toLower c) = isHexMixed c := by
  unfold Char.toLower
  by_cases h : c.toNat ≥ 65 ∧ c.toNat ≤ 90
  · rw [if_pos h]
    have hv : (Char.ofNat (c.toNat + 32)).toNat = c.toNat + 32 :=
      toNat_ofNat_valid _ (Or.inl (by omega))
    simp only [isHexLc, isHexMixed, hv, decide_eq_decide]
    omega
  · rw [if_neg h]
    simp only [isHexLc, isHexMixed, decide_eq_decide]
    omega

theorem map_error_iff {A B E : Type} (f : A → B) (x : Except E A) :
    (∃ e, x.map f = .error e) ↔ (∃ e, x = .error e) := by
  cases x <;> simp [Except.map]

theorem parseHexInput_error_iff (v : String) :
    (∃ e, parseHexInput v = Except.error e) ↔
      ((v.data.filter (fun c => !isJsWs c)).length % 2 = 1 ∨
       (v.data.filter (fun c => !isJsWs c)).any (fun c => !isHexMixed c) = true) := by
  simp only [parseHexInput]
  have hfun : ((fun c => !isHexLc c) ∘ Char.toLower) =
      fun c => !isHexMixed c :=
    funext fun c => by simp [Function.comp, isHexLc_toLower c]
  rw [List.any_map, hfun]
  simp only [List.length_map]
  split_ifs with h0 h1 h2
  · have hnil : v.data.filter (fun c => !isJsWs c) = [] :=
      List.length_eq_zero.mp h0
    simp [hnil]
  · constructor
    · intro _
      left
      omega
    · intro _
      exact ⟨_, rfl⟩
  · constructor
    · intro _
      right
      exact h2
    · intro _
      exact ⟨_, rfl⟩
  · constructor
    · rintro ⟨e, he⟩
      exact absurd he (by simp)
    · rintro (hodd | hbad)
      · omega
      · exact absurd hbad (by simpa using h2)

/-- C7: in hex mode the construction fails (with the invalid-hex-input
error) if and only if, after whitespace removal, the digit count is odd or
some character falls outside `[0-9a-fA-F]`; inputs `"a"` and `"zz"` fail
with the respective error messages; the failure is an `Except.error`
carrying no partial trace; and text mode never fails. -/
theorem hex_error_characterization :
    (∀ v : String,
        (∃ e, buildMd5Trace v InputType.hex = Except.error e) ↔
          ((v.data.filter (fun c => !isJsWs c)).length % 2 = 1 ∨
           (v.data.filter (fun c => !isJsWs c)).any (fun c => !isHexMixed c) =
             true)) ∧
    buildMd5Trace "a" InputType.hex =
      Except.error "Hex input must contain an even number of digits." ∧
    buildMd5Trace "zz" InputType.hex =
      Except.error "Hex input can only contain 0-9 and a-f." ∧
    (∀ v : String, ∃ t, buildMd5Trace v InputType.text = Except.ok t) := by
  refine ⟨fun v => ?_, rfl, rfl, fun v => ⟨_, rfl⟩⟩
  rw [show buildMd5Trace v InputType.hex =
      (parseHexInput v).map (buildTraceFromBytes InputType.hex) from rfl,
    map_error_iff]
  exact parseHexInput_error_iff v

end Md5

namespace Md5

/-! ## Unfolding and structural lemmas for the chunk loop -/

set_option maxRecDepth 4000 in
theorem processChunks_cons (h : HashState) (ch : Chunk) (rest : List Chunk) :
    processChunks h (ch :: rest) =
      (Event.chunkStart ch.index ch.words h (regsOfHash h) (digestFromState h) ::
        ((chunkRoundsOut h ch).1 ++
          Event.chunkEnd ch.index h
            ⟨(chunkRoundsOut h ch).2.a % 4294967296,
             (chunkRoundsOut h ch).2.b % 4294967296,
             (chunkRoundsOut h ch).2.c % 4294967296,
             (chunkRoundsOut h ch).2.d % 4294967296⟩
            (chunkFold h ch) (digestFromState (chunkFold h ch))
            (digestFromState (chunkFold h ch)) ::
          (processChunks (chunkFold h ch) rest).1),
       (processChunks (chunkFold h ch) rest).2) := by
  simp only [processChunks, chunkRoundsOut, chunkFold, regsOfHash]
  rfl

theorem buildTrace_events (ty : InputType) (bs : List Nat) :
    (buildTraceFromBytes ty bs).events =
      Event.preprocess ty bs.length (8 * bs.length) (padBytes bs).length
        (8 * (padBytes bs).length) ((padBytes bs).length - bs.length)
        (traceChunks bs).length (digestFromState INITIAL_HASH) ::
      (traceRun bs).1 ++
      [Event.done (traceRun bs).2 (digestFromState (traceRun bs).2)
        (traceChunks bs).length (digestFromState (traceRun bs).2)] := rfl

theorem buildTrace_chunks (ty : InputType) (bs : List Nat) :
    (buildTraceFromBytes ty bs).chunks = traceChunks bs := rfl

theorem buildTrace_digest (ty : InputType) (bs : List Nat) :
    (buildTraceFromBytes ty bs).digest = digestFromState (traceRun bs).2 := rfl

theorem ok_eq_build (v : String) (ty : InputType) (t : Trace)
    (hok : buildMd5Trace v ty = Except.ok t) :
    ∃ bs, parseInputBytes v ty = Except.ok bs ∧
      t = buildTraceFromBytes ty bs := by
  unfold buildMd5Trace at hok
  cases hpi : parseInputBytes v ty with
  | error e =>
    rw [hpi] at hok
    exact absurd hok (by simp [Except.map])
  | ok bs =>
    rw [hpi] at hok
    simp only [Except.map, Except.ok.injEq] at hok
    exact ⟨bs, rfl, hok.symm⟩

theorem runRounds_events_length (hb : HashState) (ci : Nat) (ws : List Nat)
    (fuel : Nat) : ∀ (i : Nat) (r : Regs),
    ((runRounds hb ci ws fuel i r).1).length = fuel := by
  induction fuel with
  | zero => intro i r; rfl
  | succ n ih =>
    intro i r
    simp only [runRounds, List.length_cons, ih]

theorem runRounds_all_round (hb : HashState) (ci : Nat) (ws : List Nat)
    (fuel : Nat) : ∀ (i : Nat) (r : Regs) (e : Event),
    e ∈ (runRounds hb ci ws fuel i r).1 →
      e.isRound = true ∧ e.chunkIndexOf = ci ∧
      e.registersAfterOf.a = e.registersBeforeOf.d ∧
      e.registersAfterOf.c = e.registersBeforeOf.b ∧
      e.digestPreviewOf = digestFromState (addHR hb e.registersAfterOf) ∧
      i ≤ e.roundIndexOf ∧ e.roundIndexOf < i + fuel := by
  induction fuel with
  | zero => intro i r e he; simp [runRounds] at he
  | succ n ih =>
    intro i r e he
    simp only [runRounds] at he
    rcases List.mem_cons.mp he with rfl | htail
    · exact ⟨rfl, rfl, rfl, rfl, rfl, Nat.le_refl i,
        show i < i + (n + 1) by omega⟩
    · obtain ⟨h1, h2, h3, h4, h5, h6, h7⟩ := ih (i + 1) _ e htail
      exact ⟨h1, h2, h3, h4, h5, by omega, by omega⟩

theorem runRounds_last_registers (hb : HashState) (ci : Nat) (ws : List Nat)
    (fuel : Nat) : ∀ (i : Nat) (r : Regs) (e : Event),
    e ∈ (runRounds hb ci ws fuel i r).1 →
    e.roundIndexOf = i + fuel - 1 →
      e.registersAfterOf = (runRounds hb ci ws fuel i r).2 := by
  induction fuel with
  | zero => intro i r e he _; simp [runRounds] at he
  | succ n ih =>
    intro i r e he hri
    simp only [runRounds] at he ⊢
    rcases List.mem_cons.mp he with rfl | htail
    · have hri2 : i = i + (n + 1) - 1 := hri
      have hn : n = 0 := by omega
      subst hn
      rfl
    · exact ih (i + 1) _ e htail (by omega)

theorem processChunks_events_length (cs : List Chunk) :
    ∀ h : HashState, ((processChunks h cs).1).length = 66 * cs.length := by
  induction cs with
  | nil => intro h; rfl
  | cons ch rest ih =>
    intro h
    rw [processChunks_cons]
    simp only [List.length_cons, List.length_append,
      runRounds_events_length, ih]
    have : ((chunkRoundsOut h ch).1).length = 64 :=
      runRounds_events_length h ch.index ch.words 64 0 (regsOfHash h)
    omega

theorem processChunks_shape :
    ∀ (cs : List Chunk) (h : HashState), ∃ blocks : List (List Event),
      (processChunks h cs).1 = blocks.flatten ∧ blocks.length = cs.length ∧
      ∀ blk ∈ blocks, ∃ se rs ee, blk = se :: rs ++ [ee] ∧
        se.isChunkStart = true ∧ ee.isChunkEnd = true ∧ rs.length = 64 ∧
        ∀ e ∈ rs, e.isRound = true
  | [], _ => ⟨[], rfl, rfl, by simp⟩
  | ch :: rest, h => by
    obtain ⟨blocks, hflat, hlen, hblk⟩ :=
      processChunks_shape rest (chunkFold h ch)
    refine ⟨(Event.chunkStart ch.index ch.words h (regsOfHash h)
        (digestFromState h) ::
        ((chunkRoundsOut h ch).1 ++
          [Event.chunkEnd ch.index h
            ⟨(chunkRoundsOut h ch).2.a % 4294967296,
             (chunkRoundsOut h ch).2.b % 4294967296,
             (chunkRoundsOut h ch).2.c % 4294967296,
             (chunkRoundsOut h ch).2.d % 4294967296⟩
            (chunkFold h ch) (digestFromState (chunkFold h ch))
            (digestFromState (chunkFold h ch))])) :: blocks, ?_, ?_, ?_⟩
    · rw [processChunks_cons, List.flatten_cons, ← hflat]
      simp [List.append_assoc]
    · simpa using hlen
    · intro blk hbm
      rcases List.mem_cons.mp hbm with rfl | hmem
      · refine ⟨_, (chunkRoundsOut h ch).1, _, rfl, rfl, rfl,
          runRounds_events_length h ch.index ch.words 64 0 (regsOfHash h),
          fun e he => (runRounds_all_round h ch.index ch.words 64 0
            (regsOfHash h) e he).1⟩
      · exact hblk blk hmem

/-! ## C5 -/

/-- C5: every successfully built trace has exactly
`1 + chunkCount * 66 + 1` events, laid out as one Preprocess event, then
per chunk one ChunkStart, 64 Round events and one ChunkEnd, in order, then
one final Done event whose digest equals the trace's digest field. -/
theorem trace_event_structure (v : String) (ty : InputType) (t : Trace)
    (hok : buildMd5Trace v ty = Except.ok t) :
    t.events.length = 1 + t.chunks.length * 66 + 1 ∧
    (∃ (blocks : List (List Event)) (pre lastEv : Event),
      t.events = pre :: blocks.flatten ++ [lastEv] ∧
      pre.isPreprocess = true ∧ lastEv.isDone = true ∧
      blocks.length = t.chunks.length ∧
      ∀ blk ∈ blocks, ∃ se rs ee, blk = se :: rs ++ [ee] ∧
        se.isChunkStart = true ∧ ee.isChunkEnd = true ∧ rs.length = 64 ∧
        ∀ e ∈ rs, e.isRound = true) ∧
    (∃ hfin, t.events.getLast? =
      some (Event.done hfin t.digest t.chunks.length t.digest)) := by
  obtain ⟨bs, -, rfl⟩ := ok_eq_build v ty t hok
  obtain ⟨blocks, hflat, hlen, hblk⟩ :=
    processChunks_shape (traceChunks bs) INITIAL_HASH
  refine ⟨?_,
    ⟨blocks,
     Event.preprocess ty bs.length (8 * bs.length) (padBytes bs).length
       (8 * (padBytes bs).length) ((padBytes bs).length - bs.length)
       (traceChunks bs).length (digestFromState INITIAL_HASH),
     Event.done (traceRun bs).2 (digestFromState (traceRun bs).2)
       (traceChunks bs).length (digestFromState (traceRun bs).2),
     ?_, rfl, rfl, ?_, hblk⟩,
    ⟨(traceRun bs).2, ?_⟩⟩
  · rw [buildTrace_events, buildTrace_chunks]
    simp only [List.length_cons, List.length_append, List.length_singleton,
      List.length_nil]
    have h1 : ((traceRun bs).1).length = 66 * (traceChunks bs).length :=
      processChunks_events_length (traceChunks bs) INITIAL_HASH
    omega
  · rw [buildTrace_events, ← hflat]
    rfl
  · rw [buildTrace_chunks]
    exact hlen
  · rw [buildTrace_events, buildTrace_digest, buildTrace_chunks,
      List.getLast?_concat]

/-- C5 witness: the theorem applied to the empty text-mode input. -/
theorem trace_event_structure_witness :
    buildMd5Trace "" InputType.text =
      Except.ok (buildTraceFromBytes InputType.text []) ∧
    ((buildTraceFromBytes InputType.text []).events.length =
      1 + (buildTraceFromBytes InputType.text []).chunks.length * 66 + 1 ∧
    (∃ (blocks : List (List Event)) (pre lastEv : Event),
      (buildTraceFromBytes InputType.text []).events =
        pre :: blocks.flatten ++ [lastEv] ∧
      pre.isPreprocess = true ∧ lastEv.isDone = true ∧
      blocks.length = (buildTraceFromBytes InputType.text []).chunks.length ∧
      ∀ blk ∈ blocks, ∃ se rs ee, blk = se :: rs ++ [ee] ∧
        se.isChunkStart = true ∧ ee.isChunkEnd = true ∧ rs.length = 64 ∧
        ∀ e ∈ rs, e.isRound = true) ∧
    (∃ hfin, (buildTraceFromBytes InputType.text []).events.getLast? =
      some (Event.done hfin (buildTraceFromBytes InputType.text []).digest
        (buildTraceFromBytes InputType.text []).chunks.length
        (buildTraceFromBytes InputType.text []).digest))) :=
  ⟨rfl, trace_event_structure "" InputType.text _ rfl⟩

end Md5

namespace Md5

/-! ## C6 -/

theorem processChunks_round_rotation :
    ∀ (cs : List Chunk) (h : HashState) (e : Event),
      e ∈ (processChunks h cs).1 → e.isRound = true →
        e.registersAfterOf.a = e.registersBeforeOf.d ∧
        e.registersAfterOf.c = e.registersBeforeOf.b
  | [], h, e => by
    intro he _
    simp [processChunks] at he
  | ch :: rest, h, e => by
    intro he hr
    rw [processChunks_cons] at he
    rcases List.mem_cons.mp he with rfl | he2
    · exact Bool.noConfusion hr
    rcases List.mem_append.mp he2 with hA | he3
    · obtain ⟨-, -, h3, h4, -, -, -⟩ :=
        runRounds_all_round h ch.index ch.words 64 0 (regsOfHash h) e hA
      exact ⟨h3, h4⟩
    rcases List.mem_cons.mp he3 with rfl | hR
    · exact Bool.noConfusion hr
    · exact processChunks_round_rotation rest (chunkFold h ch) e hR hr

/-- C6: in every successfully built trace, every Round event satisfies the
register rotation invariant: the A register after the round equals the D
register before it, and the C register after equals the B register before. -/
theorem round_register_rotation (v : String) (ty : InputType) (t : Trace)
    (hok : buildMd5Trace v ty = Except.ok t) :
    ∀ e ∈ t.events, e.isRound = true →
      e.registersAfterOf.a = e.registersBeforeOf.d ∧
      e.registersAfterOf.c = e.registersBeforeOf.b := by
  obtain ⟨bs, -, rfl⟩ := ok_eq_build v ty t hok
  intro e he hr
  rw [buildTrace_events] at he
  rcases List.mem_append.mp he with h1 | h2
  · rcases List.mem_cons.mp h1 with rfl | hrun
    · exact Bool.noConfusion hr
    · exact processChunks_round_rotation (traceChunks bs) INITIAL_HASH e hrun hr
  · obtain rfl := List.mem_singleton.mp h2
    exact Bool.noConfusion hr

set_option maxRecDepth 8000 in
/-- C6 witness: the theorem applied to the third event (the first Round
event) of the empty text-mode trace. -/
theorem round_register_rotation_witness :
    buildMd5Trace "" InputType.text =
      Except.ok (buildTraceFromBytes InputType.text []) ∧
    ((buildTraceFromBytes InputType.text []).events.getD 2
        (Event.done ⟨0, 0, 0, 0⟩ "" 0 "") ∈
      (buildTraceFromBytes InputType.text []).events) ∧
    ((buildTraceFromBytes InputType.text []).events.getD 2
        (Event.done ⟨0, 0, 0, 0⟩ "" 0 "")).isRound = true ∧
    (((buildTraceFromBytes InputType.text []).events.getD 2
        (Event.done ⟨0, 0, 0, 0⟩ "" 0 "")).registersAfterOf.a =
      ((buildTraceFromBytes InputType.text []).events.getD 2
        (Event.done ⟨0, 0, 0, 0⟩ "" 0 "")).registersBeforeOf.d ∧
     ((buildTraceFromBytes InputType.text []).events.getD 2
        (Event.done ⟨0, 0, 0, 0⟩ "" 0 "")).registersAfterOf.c =
      ((buildTraceFromBytes InputType.text []).events.getD 2
        (Event.done ⟨0, 0, 0, 0⟩ "" 0 "")).registersBeforeOf.b) :=
  ⟨rfl, by decide, by decide,
    round_register_rotation "" InputType.text _ rfl _ (by decide) (by decide)⟩

end Md5

namespace Md5

/-! ## C4 -/

theorem lor_lt32 {x y : Nat} (hx : x < 4294967296) (hy : y < 4294967296) :
    x ||| y < 4294967296 := by
  have h := Nat.or_lt_two_pow (n := 32) (by norm_num at hx ⊢; exact hx)
    (by norm_num at hy ⊢; exact hy)
  norm_num at h
  exact h

theorem xor_lt32 {x y : Nat} (hx : x < 4294967296) (hy : y < 4294967296) :
    x ^^^ y < 4294967296 := by
  have h := Nat.xor_lt_two_pow (n := 32) (by norm_num at hx ⊢; exact hx)
    (by norm_num at hy ⊢; exact hy)
  norm_num at h
  exact h

theorem compl32_lt {x : Nat} (hx : x < 4294967296) : compl32 x < 4294967296 :=
  xor_lt32 hx (by norm_num)

theorem roundStep_eq_spec (hb : HashState) (ci : Nat) (ws : List Nat)
    (i : Nat) (r : Regs) (hr : RegsBounded r) :
    (roundStep hb ci ws i r).2 = specRoundStep ws i r := by
  obtain ⟨ha, hb2, hc, hd⟩ := hr
  simp only [roundStep, specRoundStep]
  rw [Nat.mod_eq_of_lt ha, Nat.mod_eq_of_lt hb2, Nat.mod_eq_of_lt hc,
    Nat.mod_eq_of_lt hd]
  split_ifs with h1 h2 h3
  · rw [Nat.mod_eq_of_lt (lor_lt32 (Nat.lt_of_le_of_lt Nat.and_le_right hc)
      (Nat.lt_of_le_of_lt Nat.and_le_right hd))]
  · rw [Nat.mod_eq_of_lt (lor_lt32 (Nat.lt_of_le_of_lt Nat.and_le_right hb2)
      (Nat.lt_of_le_of_lt Nat.and_le_right hc))]
  · rw [Nat.mod_eq_of_lt (xor_lt32 (xor_lt32 hb2 hc) hd)]
  · rw [Nat.mod_eq_of_lt (xor_lt32 hc (lor_lt32 hb2 (compl32_lt hd)))]

theorem specRoundStep_bounded (ws : List Nat) (i : Nat) (r : Regs)
    (hr : RegsBounded r) : RegsBounded (specRoundStep ws i r) := by
  obtain ⟨ha, hb2, hc, hd⟩ := hr
  exact ⟨hd, Nat.mod_lt _ (by norm_num), hb2, hc⟩

theorem runRounds_regs_eq_spec (hb : HashState) (ci : Nat) (ws : List Nat)
    (fuel : Nat) : ∀ (i : Nat) (r : Regs), RegsBounded r →
    (runRounds hb ci ws fuel i r).2 = specRoundsFrom ws i fuel r := by
  induction fuel with
  | zero => intro i r _; rfl
  | succ n ih =>
    intro i r hr
    simp only [runRounds, specRoundsFrom]
    rw [roundStep_eq_spec hb ci ws i r hr]
    exact ih (i + 1) _ (specRoundStep_bounded ws i r hr)

set_option maxRecDepth 4000 in
/-- C4: for every chunk and round `i < 64`, the engine embedded from the
source computes exactly the spec's round transformation (family selection
by range of `i`, the family's `f` and `g` formulas, `sum`, `rotated`, and
the register rotation `a := d, d := c, c := b, b := b + rotated`, all
modulo 2^32), and processing one chunk folds the incoming hash state with
the registers after round 63 positionally (A into H0, B into H1, C into
H2, D into H3) modulo 2^32. -/
theorem round_engine_spec :
    (∀ (hb : HashState) (ci : Nat) (ws : List Nat) (i : Nat) (r : Regs),
        i < 64 → RegsBounded r →
        (roundStep hb ci ws i r).2 = specRoundStep ws i r) ∧
    (∀ (h : HashState) (ch : Chunk), HashBounded h →
        (processChunks h [ch]).2 =
          addHR h (specRoundsFrom ch.words 0 64 (regsOfHash h))) := by
  constructor
  · intro hb ci ws i r _ hr
    exact roundStep_eq_spec hb ci ws i r hr
  · intro h ch hh
    obtain ⟨h0, h1, h2, h3⟩ := hh
    rw [processChunks_cons]
    show chunkFold h ch = _
    have hregs : (chunkRoundsOut h ch).2 =
        specRoundsFrom ch.words 0 64 (regsOfHash h) :=
      runRounds_regs_eq_spec h ch.index ch.words 64 0 (regsOfHash h)
        ⟨h0, h1, h2, h3⟩
    rw [show chunkFold h ch = addHR h (chunkRoundsOut h ch).2 from rfl, hregs]

set_option maxRecDepth 4000 in
/-- C4 witness: the theorem applied to round 0 on concrete registers and to
one concrete chunk. -/
theorem round_engine_spec_witness :
    ((0 : Nat) < 64 ∧ RegsBounded ⟨1, 2, 3, 4⟩ ∧
      (roundStep INITIAL_HASH 0 [] 0 ⟨1, 2, 3, 4⟩).2 =
        specRoundStep [] 0 ⟨1, 2, 3, 4⟩) ∧
    (HashBounded INITIAL_HASH ∧
      (processChunks INITIAL_HASH [⟨0, [], []⟩]).2 =
        addHR INITIAL_HASH (specRoundsFrom [] 0 64 (regsOfHash INITIAL_HASH))) :=
  ⟨⟨by decide, ⟨by decide, by decide, by decide, by decide⟩,
    round_engine_spec.1 INITIAL_HASH 0 [] 0 ⟨1, 2, 3, 4⟩ (by decide)
      ⟨by decide, by decide, by decide, by decide⟩⟩,
   ⟨⟨by decide, by decide, by decide, by decide⟩,
    round_engine_spec.2 INITIAL_HASH ⟨0, [], []⟩
      ⟨by decide, by decide, by decide, by decide⟩⟩⟩

end Md5

namespace Md5

/-! ## C9 -/

theorem isRound_not_chunkStart (e : Event) (h : e.isRound = true) :
    e.isChunkStart = false := by
  cases e <;> simp_all [Event.isRound, Event.isChunkStart]

theorem isRound_not_chunkEnd (e : Event) (h : e.isRound = true) :
    e.isChunkEnd = false := by
  cases e <;> simp_all [Event.isRound, Event.isChunkEnd]

theorem chunkBytesGo_index_lb :
    ∀ (fuel idx : Nat) (bytes : List Nat) (c : Chunk),
      c ∈ chunkBytesGo fuel idx bytes → idx ≤ c.index := by
  intro fuel
  induction fuel with
  | zero => intro idx bytes c hc; simp [chunkBytesGo] at hc
  | succ n ih =>
    intro idx bytes c hc
    simp only [chunkBytesGo] at hc
    by_cases hb : bytes.isEmpty
    · rw [if_pos hb] at hc
      simp at hc
    · rw [if_neg hb] at hc
      rcases List.mem_cons.mp hc with rfl | h2
      · exact Nat.le_refl idx
      · exact Nat.le_of_succ_le (ih (idx + 1) _ c h2)

theorem chunkBytesGo_pairwise :
    ∀ (fuel idx : Nat) (bytes : List Nat),
      (chunkBytesGo fuel idx bytes).Pairwise
        (fun c1 c2 => c1.index < c2.index) := by
  intro fuel
  induction fuel with
  | zero => intro idx bytes; simp [chunkBytesGo]
  | succ n ih =>
    intro idx bytes
    simp only [chunkBytesGo]
    by_cases hb : bytes.isEmpty
    · rw [if_pos hb]
      exact List.Pairwise.nil
    · rw [if_neg hb]
      refine List.Pairwise.cons (fun c hc => ?_) (ih (idx + 1) _)
      exact Nat.lt_of_lt_of_le (Nat.lt_succ_self idx)
        (chunkBytesGo_index_lb n (idx + 1) _ c hc)

theorem processChunks_event_chunk :
    ∀ (cs : List Chunk) (h : HashState) (e : Event),
      e ∈ (processChunks h cs).1 → ∃ c ∈ cs, e.chunkIndexOf = c.index
  | [], h, e => by
    intro he
    simp [processChunks] at he
  | ch :: rest, h, e => by
    intro he
    rw [processChunks_cons] at he
    rcases List.mem_cons.mp he with rfl | he2
    · exact ⟨ch, List.mem_cons_self ch rest, rfl⟩
    rcases List.mem_append.mp he2 with hA | he3
    · obtain ⟨-, h2, -, -, -, -, -⟩ :=
        runRounds_all_round h ch.index ch.words 64 0 (regsOfHash h) e hA
      exact ⟨ch, List.mem_cons_self ch rest, h2⟩
    rcases List.mem_cons.mp he3 with rfl | hR
    · exact ⟨ch, List.mem_cons_self ch rest, rfl⟩
    · obtain ⟨c, hc, hi⟩ :=
        processChunks_event_chunk rest (chunkFold h ch) e hR
      exact ⟨c, List.mem_cons_of_mem _ hc, hi⟩

theorem processChunks_preview :
    ∀ (cs : List Chunk) (h : HashState),
      cs.Pairwise (fun c1 c2 => c1.index < c2.index) →
      ∀ e1 e2 : Event,
        e1 ∈ (processChunks h cs).1 → e2 ∈ (processChunks h cs).1 →
        (e1.isChunkStart = true → e2.isRound = true →
          e1.chunkIndexOf = e2.chunkIndexOf →
          e2.digestPreviewOf =
            digestFromState (addHR e1.hashBeforeOf e2.registersAfterOf)) ∧
        (e1.isRound = true → e1.roundIndexOf = 63 → e2.isChunkEnd = true →
          e1.chunkIndexOf = e2.chunkIndexOf →
          e1.digestPreviewOf = e2.digestAfterChunkOf)
  | [], h => by
    intro _ e1 e2 h1 _
    simp [processChunks] at h1
  | ch :: rest, h => by
    intro hpw e1 e2 he1 he2
    obtain ⟨hhead, htail⟩ := List.pairwise_cons.mp hpw
    rw [processChunks_cons] at he1 he2
    rcases List.mem_cons.mp he1 with rfl | he1b
    · constructor
      · intro _ hr2 hidx
        rcases List.mem_cons.mp he2 with rfl | he2b
        · exact Bool.noConfusion hr2
        rcases List.mem_append.mp he2b with hA2 | he2c
        · obtain ⟨-, -, -, -, hprev, -, -⟩ :=
            runRounds_all_round h ch.index ch.words 64 0 (regsOfHash h) e2 hA2
          exact hprev
        rcases List.mem_cons.mp he2c with rfl | hR2
        · exact Bool.noConfusion hr2
        · obtain ⟨c, hc, hic⟩ :=
            processChunks_event_chunk rest (chunkFold h ch) e2 hR2
          have hlt := hhead c hc
          have hidx2 : ch.index = e2.chunkIndexOf := hidx
          omega
      · intro hr1 _ _ _
        exact Bool.noConfusion hr1
    rcases List.mem_append.mp he1b with hA1 | he1c
    · obtain ⟨hr1, hi1, -, -, hprev1, -, -⟩ :=
        runRounds_all_round h ch.index ch.words 64 0 (regsOfHash h) e1 hA1
      constructor
      · intro hcs1 _ _
        rw [isRound_not_chunkStart e1 hr1] at hcs1
        exact Bool.noConfusion hcs1
      · intro _ hri63 hce2 hidx
        rcases List.mem_cons.mp he2 with rfl | he2b
        · exact Bool.noConfusion hce2
        rcases List.mem_append.mp he2b with hA2 | he2c
        · obtain ⟨hr2, -, -, -, -, -, -⟩ :=
            runRounds_all_round h ch.index ch.words 64 0 (regsOfHash h) e2 hA2
          rw [isRound_not_chunkEnd e2 hr2] at hce2
          exact Bool.noConfusion hce2
        rcases List.mem_cons.mp he2c with rfl | hR2
        · have hra : e1.registersAfterOf = (chunkRoundsOut h ch).2 :=
            runRounds_last_registers h ch.index ch.words 64 0 (regsOfHash h)
              e1 hA1 (by omega)
          rw [hprev1, hra]
          rfl
        · obtain ⟨c, hc, hic⟩ :=
            processChunks_event_chunk rest (chunkFold h ch) e2 hR2
          have hlt := hhead c hc
          omega
    rcases List.mem_cons.mp he1c with rfl | hR1
    · constructor
      · intro hcs1 _ _
        exact Bool.noConfusion hcs1
      · intro hr1 _ _ _
        exact Bool.noConfusion hr1
    · obtain ⟨c1, hc1, hic1⟩ :=
        processChunks_event_chunk rest (chunkFold h ch) e1 hR1
      have hlt1 := hhead c1 hc1
      constructor
      · intro hcs1 hr2 hidx
        rcases List.mem_cons.mp he2 with rfl | he2b
        · exact Bool.noConfusion hr2
        rcases List.mem_append.mp he2b with hA2 | he2c
        · obtain ⟨-, hi2, -, -, -, -, -⟩ :=
            runRounds_all_round h ch.index ch.words 64 0 (regsOfHash h) e2 hA2
          omega
        rcases List.mem_cons.mp he2c with rfl | hR2
        · exact Bool.noConfusion hr2
        · exact (processChunks_preview rest (chunkFold h ch) htail e1 e2
            hR1 hR2).1 hcs1 hr2 hidx
      · intro hr1 hri1 hce2 hidx
        rcases List.mem_cons.mp he2 with rfl | he2b
        · exact Bool.noConfusion hce2
        rcases List.mem_append.mp he2b with hA2 | he2c
        · obtain ⟨hr2, -, -, -, -, -, -⟩ :=
            runRounds_all_round h ch.index ch.words 64 0 (regsOfHash h) e2 hA2
          rw [isRound_not_chunkEnd e2 hr2] at hce2
          exact Bool.noConfusion hce2
        rcases List.mem_cons.mp he2c with rfl | hR2
        · have hidx2 : e1.chunkIndexOf = ch.index := hidx
          omega
        · exact (processChunks_preview rest (chunkFold h ch) htail e1 e2
            hR1 hR2).2 hr1 hri1 hce2 hidx

/-- C9: in every successfully built trace, each Round event's preview
digest is the digest rendering of the chunk's incoming hash state (the one
recorded in the matching ChunkStart event) added per entry modulo 2^32 to
the registers after that round; consequently the Round event with round
index 63 of a chunk carries exactly the post-fold digest recorded in that
chunk's ChunkEnd event. -/
theorem round_preview_digest (v : String) (ty : InputType) (t : Trace)
    (hok : buildMd5Trace v ty = Except.ok t) :
    ∀ e1 ∈ t.events, ∀ e2 ∈ t.events,
      (e1.isChunkStart = true → e2.isRound = true →
        e1.chunkIndexOf = e2.chunkIndexOf →
        e2.digestPreviewOf =
          digestFromState (addHR e1.hashBeforeOf e2.registersAfterOf)) ∧
      (e1.isRound = true → e1.roundIndexOf = 63 → e2.isChunkEnd = true →
        e1.chunkIndexOf = e2.chunkIndexOf →
        e1.digestPreviewOf = e2.digestAfterChunkOf) := by
  obtain ⟨bs, -, rfl⟩ := ok_eq_build v ty t hok
  intro e1 he1 e2 he2
  rw [buildTrace_events] at he1 he2
  have main : e1 ∈ (traceRun bs).1 → e2 ∈ (traceRun bs).1 → _ :=
    fun m1 m2 => processChunks_preview (traceChunks bs) INITIAL_HASH
      (chunkBytesGo_pairwise (padBytes bs).length 0 (padBytes bs)) e1 e2 m1 m2
  rcases List.mem_append.mp he1 with h1a | h1b
  · rcases List.mem_cons.mp h1a with rfl | h1run
    · exact ⟨fun hcs _ _ => Bool.noConfusion hcs,
        fun hr _ _ _ => Bool.noConfusion hr⟩
    · rcases List.mem_append.mp he2 with h2a | h2b
      · rcases List.mem_cons.mp h2a with rfl | h2run
        · exact ⟨fun _ hr2 _ => Bool.noConfusion hr2,
            fun _ _ hce _ => Bool.noConfusion hce⟩
        · exact main h1run h2run
      · obtain rfl := List.mem_singleton.mp h2b
        exact ⟨fun _ hr2 _ => Bool.noConfusion hr2,
          fun _ _ hce _ => Bool.noConfusion hce⟩
  · obtain rfl := List.mem_singleton.mp h1b
    exact ⟨fun hcs _ _ => Bool.noConfusion hcs,
      fun hr _ _ _ => Bool.noConfusion hr⟩

end Md5

namespace Md5

theorem getD_mem_of_lt {α : Type} (l : List α) (n : Nat) (d : α)
    (h : n < l.length) : l.getD n d ∈ l := by
  rw [List.getD_eq_getElem l d h]
  exact List.getElem_mem h

set_option maxRecDepth 8000 in
/-- C9 witness: the theorem applied to the empty text-mode trace, pairing
its ChunkStart event with its first Round event and its last Round event
(round index 63) with its ChunkEnd event. -/
theorem round_preview_digest_witness :
    buildMd5Trace "" InputType.text = Except.ok emptyTextTrace ∧
    evAt 1 ∈ emptyTextTrace.events ∧ evAt 2 ∈ emptyTextTrace.events ∧
    (evAt 1).isChunkStart = true ∧ (evAt 2).isRound = true ∧
    (evAt 1).chunkIndexOf = (evAt 2).chunkIndexOf ∧
    (evAt 2).digestPreviewOf =
      digestFromState (addHR (evAt 1).hashBeforeOf (evAt 2).registersAfterOf) ∧
    evAt 65 ∈ emptyTextTrace.events ∧ evAt 66 ∈ emptyTextTrace.events ∧
    (evAt 65).isRound = true ∧ (evAt 65).roundIndexOf = 63 ∧
    (evAt 66).isChunkEnd = true ∧
    (evAt 65).chunkIndexOf = (evAt 66).chunkIndexOf ∧
    (evAt 65).digestPreviewOf = (evAt 66).digestAfterChunkOf :=
  ⟨rfl,
   getD_mem_of_lt _ 1 _ (by decide), getD_mem_of_lt _ 2 _ (by decide),
   by decide, by decide, by decide,
   (round_preview_digest "" InputType.text emptyTextTrace rfl
      (evAt 1) (getD_mem_of_lt _ 1 _ (by decide))
      (evAt 2) (getD_mem_of_lt _ 2 _ (by decide))).1
     (by decide) (by decide) (by decide),
   getD_mem_of_lt _ 65 _ (by decide), getD_mem_of_lt _ 66 _ (by decide),
   by decide, by decide, by decide, by decide,
   (round_preview_digest "" InputType.text emptyTextTrace rfl
      (evAt 65) (getD_mem_of_lt _ 65 _ (by decide))
      (evAt 66) (getD_mem_of_lt _ 66 _ (by decide))).2
     (by decide) (by decide) (by decide) (by decide)⟩

/-! ## C10 -/

/-- C10 counterexample: hex-mode input `""` is accepted, but its trace is
not equal to the empty text-mode trace — the two traces differ in their
inputType mode annotation. -/
theorem hex_empty_trace_not_equal :
    (buildMd5Trace "" InputType.hex).map Trace.inputType =
      Except.ok InputType.hex ∧
    (buildMd5Trace "" InputType.text).map Trace.inputType =
      Except.ok InputType.text ∧
    buildMd5Trace "" InputType.hex ≠ buildMd5Trace "" InputType.text := by
  refine ⟨rfl, rfl, fun h => ?_⟩
  have h2 : (Except.ok InputType.hex : Except String InputType) =
      Except.ok InputType.text := by
    calc Except.ok InputType.hex
        = (buildMd5Trace "" InputType.hex).map Trace.inputType := rfl
      _ = (buildMd5Trace "" InputType.text).map Trace.inputType := by rw [h]
      _ = Except.ok InputType.text := rfl
  exact InputType.noConfusion (Except.ok.inj h2)

set_option maxRecDepth 8000 in
/-- C10 (amended): a hex-mode input that is empty or all whitespace does
not raise InvalidHexInput: it is accepted as the empty byte sequence, and
its trace agrees with the empty text-mode trace in input bytes, padded
bytes, chunks, digest (d41d8cd98f00b204e9800998ecf8427e) and in every
event after the first, the first (Preprocess) events of the two traces
differing only in their inputType annotation. -/
theorem hex_whitespace_only_accepted (s : String)
    (hws : s.data.all isJsWs = true) :
    buildMd5Trace s InputType.hex =
      Except.ok (buildTraceFromBytes InputType.hex []) ∧
    (buildTraceFromBytes InputType.hex []).inputBytes =
      (buildTraceFromBytes InputType.text []).inputBytes ∧
    (buildTraceFromBytes InputType.hex []).paddedBytes =
      (buildTraceFromBytes InputType.text []).paddedBytes ∧
    (buildTraceFromBytes InputType.hex []).chunks =
      (buildTraceFromBytes InputType.text []).chunks ∧
    (buildTraceFromBytes InputType.hex []).digest =
      (buildTraceFromBytes InputType.text []).digest ∧
    (buildTraceFromBytes InputType.hex []).events.tail =
      (buildTraceFromBytes InputType.text []).events.tail ∧
    (buildTraceFromBytes InputType.hex []).events.head? =
      some (Event.preprocess InputType.hex 0 0 64 512 64 1
        (digestFromState INITIAL_HASH)) ∧
    (buildTraceFromBytes InputType.text []).events.head? =
      some (Event.preprocess InputType.text 0 0 64 512 64 1
        (digestFromState INITIAL_HASH)) ∧
    (buildTraceFromBytes InputType.hex []).digest =
      "d41d8cd98f00b204e9800998ecf8427e" := by
  have hf : s.data.filter (fun c => !isJsWs c) = [] := by
    rw [List.filter_eq_nil_iff]
    intro a ha
    simp [List.all_eq_true.mp hws a ha]
  have hph : parseHexInput s = Except.ok [] := by
    simp [parseHexInput, hf]
  refine ⟨?_, rfl, rfl, rfl, rfl, rfl, rfl, rfl, rfl⟩
  show (parseHexInput s).map (buildTraceFromBytes InputType.hex) = _
  rw [hph]
  rfl

set_option maxRecDepth 8000 in
/-- C10 witness: the amended theorem applied to the single-space input. -/
theorem hex_whitespace_only_accepted_witness :
    " ".data.all isJsWs = true ∧
    (buildMd5Trace " " InputType.hex =
      Except.ok (buildTraceFromBytes InputType.hex []) ∧
    (buildTraceFromBytes InputType.hex []).inputBytes =
      (buildTraceFromBytes InputType.text []).inputBytes ∧
    (buildTraceFromBytes InputType.hex []).paddedBytes =
      (buildTraceFromBytes InputType.text []).paddedBytes ∧
    (buildTraceFromBytes InputType.hex []).chunks =
      (buildTraceFromBytes InputType.text []).chunks ∧
    (buildTraceFromBytes InputType.hex []).digest =
      (buildTraceFromBytes InputType.text []).digest ∧
    (buildTraceFromBytes InputType.hex []).events.tail =
      (buildTraceFromBytes InputType.text []).events.tail ∧
    (buildTraceFromBytes InputType.hex []).events.head? =
      some (Event.preprocess InputType.hex 0 0 64 512 64 1
        (digestFromState INITIAL_HASH)) ∧
    (buildTraceFromBytes InputType.text []).events.head? =
      some (Event.preprocess InputType.text 0 0 64 512 64 1
        (digestFromState INITIAL_HASH)) ∧
    (buildTraceFromBytes InputType.hex []).digest =
      "d41d8cd98f00b204e9800998ecf8427e") :=
  ⟨by decide, hex_whitespace_only_accepted " " (by decide)⟩

end Md5
